import Mathlib

/-!
# Verification of the self-service report builder's query pipeline

A shallow embedding of the query-processing pipeline of
`src/ReportBuilder.tsx`: filter predicate evaluation (`applyFilters`),
group/aggregate computation (`groupAndAggregate`), the SQL-ish query text
generator (`sqlPreview`), the delimited-text serializer (`toCSV`), and the
sort/limit stage of the preview computation.

Host-language numbers are modelled as exact rationals extended with the
special values NaN, +Infinity and -Infinity (`JSNum`); row values are
either text or such a number (`Value`); a row object is an ordered
association list of fields (`Row`), mirroring an object's insertion-ordered
string keys.
-/

namespace ReportBuilder

/-- Model of a host-language number: NaN, the two infinities, or an exact
finite value (a rational; rounding of the host's binary floating point is
outside the modelled fragment, which only ever needs exact decimal data). -/
inductive JSNum where
  | nan : JSNum
  | posInf : JSNum
  | negInf : JSNum
  | fin : ℚ → JSNum
deriving DecidableEq, Repr

namespace JSNum

/-- Addition (`+` on numbers): NaN is absorbing; opposite infinities give
NaN; an infinity absorbs finite values. -/
def add : JSNum → JSNum → JSNum
  | nan, _ => nan
  | _, nan => nan
  | posInf, negInf => nan
  | negInf, posInf => nan
  | posInf, _ => posInf
  | _, posInf => posInf
  | negInf, _ => negInf
  | _, negInf => negInf
  | fin q, fin r => fin (q + r)

/-- `<` on numbers: any comparison with NaN is false. -/
def ltb : JSNum → JSNum → Bool
  | nan, _ => false
  | _, nan => false
  | negInf, negInf => false
  | negInf, _ => true
  | _, negInf => false
  | posInf, _ => false
  | fin _, posInf => true
  | fin q, fin r => decide (q < r)

/-- `<=` on numbers: any comparison with NaN is false. -/
def leb : JSNum → JSNum → Bool
  | nan, _ => false
  | _, nan => false
  | negInf, _ => true
  | _, negInf => false
  | _, posInf => true
  | posInf, fin _ => false
  | fin q, fin r => decide (q ≤ r)

/-- `>` on numbers. -/
def gtb (a b : JSNum) : Bool := ltb b a

/-- `>=` on numbers. -/
def geb (a b : JSNum) : Bool := leb b a

/-- `Math.min`: NaN if either argument is NaN, else the smaller. -/
def minJ : JSNum → JSNum → JSNum
  | nan, _ => nan
  | _, nan => nan
  | a, b => if leb a b then a else b

/-- `Math.max`: NaN if either argument is NaN, else the larger. -/
def maxJ : JSNum → JSNum → JSNum
  | nan, _ => nan
  | _, nan => nan
  | a, b => if leb a b then b else a

end JSNum

/-- A scalar cell value: text or a number (the source's `string | number`). -/
inductive Value where
  | vStr : String → Value
  | vNum : JSNum → Value
deriving DecidableEq, Repr

/-- A row object: insertion-ordered association list from attribute name to
value (the source's `Row = Record<string, string | number>`). -/
abbrev Row := List (String × Value)

/-- Property read `r[k]`: the value of the first binding of `k`, if any
(`none` models `undefined`). -/
def getVal : Row → String → Option Value
  | [], _ => none
  | p :: ps, k => if p.1 == k then some p.2 else getVal ps k

/-- Property write `r[k] = v`: overwrite the existing binding in place
(keys keep their insertion order) or append a fresh binding. -/
def setVal : Row → String → Value → Row
  | [], k, v => [(k, v)]
  | p :: ps, k, v => if p.1 == k then (p.1, v) :: ps else p :: setVal ps k v

/-! ## String helpers (substring tests and number/date parsing) -/

/-- `String.prototype.includes`. -/
def strIncludes (s sub : String) : Bool := decide (sub.data <:+: s.data)

/-- `String.prototype.startsWith`. -/
def strStarts (s sub : String) : Bool := decide (sub.data <+: s.data)

/-- `String.prototype.endsWith`. -/
def strEnds (s sub : String) : Bool := decide (sub.data <:+ s.data)

/-- A natural number as a rational, built directly as a reduced fraction so
that concrete evaluation stays cheap. -/
def ratOfNat (n : ℕ) : ℚ := ⟨n, 1, one_ne_zero, Nat.coprime_one_right _⟩

/-- Interpret a list of characters as a base-10 natural number, failing on
an empty list or a non-digit. -/
def digitsToNat (cs : List Char) : Option Nat :=
  if cs ≠ [] ∧ cs.all Char.isDigit then
    some (cs.foldl (fun a c => a * 10 + (c.toNat - 48)) 0)
  else none

/-- `Number(string)` on the fragment the pipeline uses: the empty string is
0; `Infinity` / `-Infinity` parse to the infinities; an optional sign
followed by decimal digits with an optional fractional part parses exactly;
anything else (in particular arbitrary text) is NaN. -/
def parseNum (s : String) : JSNum :=
  if s = "" then .fin 0
  else if s = "Infinity" then .posInf
  else if s = "-Infinity" then .negInf
  else
    let (neg, body) :=
      match s.data with
      | '-' :: rest => (true, rest)
      | '+' :: rest => (false, rest)
      | l => (false, l)
    let intPart := body.takeWhile (fun c => c ≠ '.')
    let rest := body.dropWhile (fun c => c ≠ '.')
    let sign : ℚ := if neg then -1 else 1
    match rest with
    | [] =>
      match digitsToNat intPart with
      | some n => .fin (sign * ratOfNat n)
      | none => .nan
    | _ :: fracPart =>
      match intPart, fracPart with
      | [], [] => .nan
      | ip, [] =>
        match digitsToNat ip with
        | some n => .fin (sign * ratOfNat n)
        | none => .nan
      | [], fp =>
        match digitsToNat fp with
        | some f => .fin (sign * (ratOfNat f / ratOfNat (10 ^ fp.length)))
        | none => .nan
      | ip, fp =>
        match digitsToNat ip, digitsToNat fp with
        | some n, some f =>
          .fin (sign * (ratOfNat n + ratOfNat f / ratOfNat (10 ^ fp.length)))
        | _, _ => .nan

/-- `new Date(s).getTime()` on ISO `YYYY-MM-DD` strings, as an
order-preserving code `y*10000 + m*100 + d`; any other string is an invalid
date, i.e. NaN (so every comparison against it is false). -/
def parseDate (s : String) : JSNum :=
  match s.data with
  | [y1, y2, y3, y4, '-', m1, m2, '-', d1, d2] =>
    if [y1, y2, y3, y4, m1, m2, d1, d2].all Char.isDigit then
      let y := ((y1.toNat - 48) * 10 + (y2.toNat - 48)) * 100 +
        (y3.toNat - 48) * 10 + (y4.toNat - 48)
      let m := (m1.toNat - 48) * 10 + (m2.toNat - 48)
      let d := (d1.toNat - 48) * 10 + (d2.toNat - 48)
      if 1 ≤ m ∧ m ≤ 12 ∧ 1 ≤ d ∧ d ≤ 31 then
        .fin (ratOfNat (y * 10000 + m * 100 + d))
      else .nan
    else .nan
  | _ => .nan

/-- Decimal rendering of a rational: exact for integers (the only numbers
the verified scenarios print); a non-integral value falls back to a
`num/den` rendering, standing in for the host's float printing, which is
outside the modelled fragment. -/
def ratToString (q : ℚ) : String :=
  if q.den = 1 then
    (if q.num < 0 then "-" else "") ++ toString q.num.natAbs
  else
    (if q.num < 0 then "-" else "") ++ toString q.num.natAbs ++ "/" ++ toString q.den

/-- `String(n)` for a number. -/
def numToString : JSNum → String
  | .nan => "NaN"
  | .posInf => "Infinity"
  | .negInf => "-Infinity"
  | .fin q => ratToString q

/-- `String(v)` for a defined value. -/
def valueToString : Value → String
  | .vStr s => s
  | .vNum n => numToString n

/-- `String(v)` where `v` may be `undefined` (prints as `"undefined"`). -/
def jsString : Option Value → String
  | none => "undefined"
  | some w => valueToString w

/-- `Number(v)` for a possibly-undefined value: `Number(undefined)` is NaN,
a number is itself, a string is parsed. -/
def toNumber : Option Value → JSNum
  | none => .nan
  | some (.vNum n) => n
  | some (.vStr s) => parseNum s

/-- `Number` applied to an element of a split result that may be absent
(destructuring past the end of `split(",")` yields `undefined`, hence NaN). -/
def numOfOptStr : Option String → JSNum
  | none => .nan
  | some s => parseNum s

/-- `new Date(a)` applied to a possibly-absent split part: a missing part is
`undefined`, an invalid date, hence NaN. -/
def dateOfOptStr : Option String → JSNum
  | none => .nan
  | some s => parseDate s

/-! ## Filter evaluator (`applyFilters`) -/

/-- A filter predicate description (the source's `FilterDef`). -/
structure FilterDef where
  id : String
  «attribute» : String
  operator : String
  value : String
deriving DecidableEq, Repr

/-- The `safe` coercion of `applyFilters`: `undefined`/`null` becomes the
empty string, a defined value is kept. -/
def safe : Option Value → Value
  | none => .vStr ""
  | some v => v

/-- One filter's predicate over one row: the `switch (f.operator)` body of
`applyFilters`, transcribed case by case; the `default` arm keeps the row. -/
def filterPred (row : Row) (f : FilterDef) : Bool :=
  let v := getVal row f.«attribute»
  let val := f.value
  match f.operator with
  | "contains" => strIncludes (valueToString (safe v)).toLower val.toLower
  | "startsWith" => strStarts (valueToString (safe v)).toLower val.toLower
  | "endsWith" => strEnds (valueToString (safe v)).toLower val.toLower
  | "=" => valueToString (safe v) == val
  | "!=" => valueToString (safe v) != val
  | ">" => (toNumber v).gtb (parseNum val)
  | ">=" => (toNumber v).geb (parseNum val)
  | "<" => (toNumber v).ltb (parseNum val)
  | "<=" => (toNumber v).leb (parseNum val)
  | "between" =>
    let parts := val.splitOn ","
    let lo := numOfOptStr (parts.get? 0)
    let hi := numOfOptStr (parts.get? 1)
    (toNumber v).geb (JSNum.minJ lo hi) && (toNumber v).leb (JSNum.maxJ lo hi)
  | "on" => jsString v == val
  | "before" => (parseDate (jsString v)).ltb (parseDate val)
  | "after" => (parseDate (jsString v)).gtb (parseDate val)
  | "range" =>
    let parts := val.splitOn ","
    let da := dateOfOptStr (parts.get? 0)
    let db := dateOfOptStr (parts.get? 1)
    (parseDate (jsString v)).geb da && (parseDate (jsString v)).leb db
  | _ => true

/-- `applyFilters(rows, filters)`: identity on an empty filter list, else
keep the rows on which every filter predicate holds. -/
def applyFilters (rows : List Row) (filters : List FilterDef) : List Row :=
  if filters.isEmpty then rows
  else rows.filter (fun row => filters.all (filterPred row))

/-! ## Aggregation engine (`groupAndAggregate`) -/

/-- The source's `NumericFunc` union. -/
inductive NumericFunc where
  | sum | avg | min | max | count
deriving DecidableEq, Repr

/-- An aggregation request (the source's `AggregationDef`). -/
structure AggregationDef where
  «attribute» : String
  func : NumericFunc
deriving DecidableEq, Repr

/-- An element of `Array.prototype.join`: `undefined` joins as the empty
string, a defined value joins as its string form. -/
def joinElem : Option Value → String
  | none => ""
  | some v => valueToString v

/-- `keyFn(r) = groupBy.map(g => r[g]).join("|§|")`: the group key of a row. -/
def keyFn (groupBy : List String) (r : Row) : String :=
  String.intercalate "|§|" (groupBy.map (fun g => joinElem (getVal r g)))

/-- The fresh accumulator object `base` built when a group key is first
seen: the group-by attributes' values, then per aggregation its seed —
`__sum_`/`__cnt_` zeros for `avg`, 0 for `count` and `sum`, +Infinity for
`min`, -Infinity for `max`.  (The host stores an explicitly-`undefined`
property when `r[g]` is absent; observationally on `getVal` this equals
leaving the key unset, which is how it is modelled.) -/
def initGroup (r : Row) (groupBy : List String) (aggs : List AggregationDef) : Row :=
  let base := groupBy.foldl
    (fun b g => match getVal r g with
      | some v => setVal b g v
      | none => b) []
  aggs.foldl
    (fun b a =>
      match a.func with
      | .avg =>
        setVal (setVal b ("__sum_" ++ a.«attribute») (.vNum (.fin 0)))
          ("__cnt_" ++ a.«attribute») (.vNum (.fin 0))
      | .count => setVal b ("count(" ++ a.«attribute» ++ ")") (.vNum (.fin 0))
      | .sum => setVal b ("sum(" ++ a.«attribute» ++ ")") (.vNum (.fin 0))
      | .min => setVal b ("min(" ++ a.«attribute» ++ ")") (.vNum .posInf)
      | .max => setVal b ("max(" ++ a.«attribute» ++ ")") (.vNum .negInf))
    base

/-- Read an accumulator field as a number (`gobj[k]` in an arithmetic
position; the field is always a number by construction). -/
def getNum (g : Row) (k : String) : JSNum := toNumber (getVal g k)

/-- One row's contribution to its group's accumulator object: the
`aggregations.forEach` body, with `val = Number(r[a.«attribute»])`. -/
def updateRow (gobj : Row) (r : Row) (aggs : List AggregationDef) : Row :=
  aggs.foldl
    (fun g a =>
      let val := toNumber (getVal r a.«attribute»)
      match a.func with
      | .count =>
        let k := "count(" ++ a.«attribute» ++ ")"
        setVal g k (.vNum ((getNum g k).add (.fin 1)))
      | .sum =>
        let k := "sum(" ++ a.«attribute» ++ ")"
        setVal g k (.vNum ((getNum g k).add val))
      | .min =>
        let k := "min(" ++ a.«attribute» ++ ")"
        setVal g k (.vNum (JSNum.minJ (getNum g k) val))
      | .max =>
        let k := "max(" ++ a.«attribute» ++ ")"
        setVal g k (.vNum (JSNum.maxJ (getNum g k) val))
      | .avg =>
        let ks := "__sum_" ++ a.«attribute»
        let kc := "__cnt_" ++ a.«attribute»
        let g := setVal g ks (.vNum ((getNum g ks).add val))
        setVal g kc (.vNum ((getNum g kc).add (.fin 1))))
    gobj

/-- Lookup in the insertion-ordered `groups` map. -/
def findGroup : List (String × Row) → String → Option Row
  | [], _ => none
  | p :: ps, k => if p.1 == k then some p.2 else findGroup ps k

/-- In-place update of one key's entry in the `groups` map. -/
def updateGroupAt (gs : List (String × Row)) (k : String) (f : Row → Row) :
    List (String × Row) :=
  gs.map (fun p => if p.1 == k then (p.1, f p.2) else p)

/-- One iteration of the `for (const r of rows)` loop: a first-seen key
appends a fresh accumulator, then the row is folded into its group's
accumulator. -/
def groupStep (groupBy : List String) (aggs : List AggregationDef)
    (gs : List (String × Row)) (r : Row) : List (String × Row) :=
  let k := keyFn groupBy r
  let gs := if (findGroup gs k).isSome then gs
    else gs ++ [(k, initGroup r groupBy aggs)]
  updateGroupAt gs k (fun gobj => updateRow gobj r aggs)

/-- The `for (const r of rows)` loop building the insertion-ordered
`groups` map. -/
def buildGroups (rows : List Row) (groupBy : List String)
    (aggs : List AggregationDef) : List (String × Row) :=
  rows.foldl (groupStep groupBy aggs) []

/-- `groupAndAggregate(rows, groupBy, aggregations)`: build the groups map
and return its values in insertion order.  The source's trailing
"finalize avg + clean infinities" loop has an empty body (its content is a
non-compiling stub, explicitly "left minimal"), so no finalization happens
between building the map and returning `Array.from(groups.values())`. -/
def groupAndAggregate (rows : List Row) (groupBy : List String)
    (aggs : List AggregationDef) : List Row :=
  (buildGroups rows groupBy aggs).map Prod.snd

/-! ## Delimited text serializer (`toCSV`) -/

/-- `Array.prototype.join(sep)` over strings. -/
def joinSep (sep : String) : List String → String
  | [] => ""
  | [x] => x
  | x :: y :: xs => x ++ sep ++ joinSep sep (y :: xs)

/-- `val.replaceAll('"', '""')` at the character level. -/
def escQuotes : List Char → List Char
  | [] => []
  | c :: t => if c = '"' then '"' :: '"' :: escQuotes t else c :: escQuotes t

/-- One serialized cell: `r[c] ?? ""` stringified; a value containing a
comma or a quote is wrapped in quotes with internal quotes doubled. -/
def csvField (raw : Option Value) : String :=
  let val := match raw with
    | none => ""
    | some v => valueToString v
  if strIncludes val "," || strIncludes val "\"" then
    "\"" ++ String.mk (escQuotes val.data) ++ "\""
  else val

/-- `toCSV(rows, columns)`: the comma-joined header, a newline, then the
newline-joined serialized rows (so an empty row list still leaves the
newline after the header). -/
def toCSV (rows : List Row) (columns : List String) : String :=
  let header := joinSep "," columns
  let content := joinSep "\n"
    (rows.map (fun r => joinSep "," (columns.map (fun c => csvField (getVal r c)))))
  header ++ "\n" ++ content

/-! ## Query text generator (`sqlPreview`) -/

/-- Sort direction (the source's `"ASC" | "DESC"` union). -/
inductive Direction where
  | ASC | DESC
deriving DecidableEq, Repr

/-- The source's `SortDef`. -/
structure SortDef where
  «attribute» : String
  direction : Direction
deriving DecidableEq, Repr

/-- `direction` as the literal it is in the source. -/
def dirStr : Direction → String
  | .ASC => "ASC"
  | .DESC => "DESC"

/-- `a.func.toUpperCase()`. -/
def funcUpper : NumericFunc → String
  | .sum => "SUM" | .avg => "AVG" | .min => "MIN" | .max => "MAX" | .count => "COUNT"

/-- `a.func` as its lower-case literal. -/
def funcLower : NumericFunc → String
  | .sum => "sum" | .avg => "avg" | .min => "min" | .max => "max" | .count => "count"

/-- A split part interpolated into a template literal: a missing part is
`undefined` and prints as `"undefined"`. -/
def partStr : Option String → String
  | none => "undefined"
  | some s => s

/-- The rendering of one filter inside the `WHERE` clause: the `switch`
in `sqlPreview`'s `filters.map`, transcribed case by case (the `val`
local — quoted when the raw value has a space or the operator is
`contains` — is only consulted by the default arm). -/
def renderFilter (f : FilterDef) : String :=
  let col := f.«attribute»
  let op := f.operator
  let val := if strIncludes f.value " " || op == "contains"
    then "'" ++ f.value ++ "'" else f.value
  match op with
  | "contains" => col ++ " LIKE '%" ++ f.value ++ "%'"
  | "startsWith" => col ++ " LIKE '" ++ f.value ++ "%'"
  | "endsWith" => col ++ " LIKE '%" ++ f.value ++ "'"
  | "between" =>
    let parts := f.value.splitOn ","
    col ++ " BETWEEN " ++ partStr (parts.get? 0) ++ " AND " ++ partStr (parts.get? 1)
  | "range" =>
    let parts := f.value.splitOn ","
    col ++ " BETWEEN '" ++ partStr (parts.get? 0) ++ "' AND '" ++
      partStr (parts.get? 1) ++ "'"
  | "on" => col ++ " = '" ++ f.value ++ "'"
  | "before" => col ++ " < '" ++ f.value ++ "'"
  | "after" => col ++ " > '" ++ f.value ++ "'"
  | _ => col ++ " " ++ op ++ " " ++ val

/-- The configuration record handed to `sqlPreview` (note: it has no row
limit field — the function never sees the configured row limit). -/
structure SqlConfig where
  dataset : String
  attributes : List String
  filters : List FilterDef
  groupBy : List String
  aggregations : List AggregationDef
  sort : SortDef
deriving Repr

/-- `sqlPreview(config)`: column clause (explicit attributes, else group-by
columns plus `FUNC(attr) AS ...` aggregation columns, else `*`), optional
`WHERE`, optional `GROUP BY`, optional `ORDER BY`, and the fixed trailing
` LIMIT 100;`. -/
def sqlPreview (c : SqlConfig) : String :=
  let cols :=
    if c.attributes.length ≠ 0 then joinSep ", " c.attributes
    else if c.groupBy.length ≠ 0 ∨ c.aggregations.length ≠ 0 then
      joinSep ", "
        (c.groupBy ++ c.aggregations.map (fun a =>
          funcUpper a.func ++ "(" ++ a.«attribute» ++ ") AS `" ++
            funcLower a.func ++ "(" ++ a.«attribute» ++ ")`"))
    else "*"
  let whereStr := joinSep " AND " (c.filters.map renderFilter)
  let group := if c.groupBy.length ≠ 0 then " GROUP BY " ++ joinSep ", " c.groupBy else ""
  let ord := if c.sort.«attribute» ≠ "" then
    " ORDER BY " ++ c.sort.«attribute» ++ " " ++ dirStr c.sort.direction else ""
  "SELECT " ++ cols ++ " FROM " ++ c.dataset ++
    (if whereStr ≠ "" then " WHERE " ++ whereStr else "") ++ group ++ ord ++
    " LIMIT 100;"

/-! ## Preview: projection, sort, row limit -/

/-- The `>` comparison of the sort comparator `a[k] > b[k]`: two strings
compare lexicographically, any other pair compares numerically (false when
either side is NaN, e.g. when a value is `undefined`). -/
def jsGTval (a b : Option Value) : Bool :=
  match a, b with
  | some (.vStr s), some (.vStr t) => decide (t < s)
  | _, _ => (toNumber a).gtb (toNumber b)

/-- A stable insertion sort, modelling the host's stable `Array.prototype.sort`;
`le a b` says `a` may stay in front of `b` (comparator value `<= 0`). -/
def stableSortBy (le : Row → Row → Bool) : List Row → List Row
  | [] => []
  | r :: rs =>
    let rec insert (r : Row) : List Row → List Row
      | [] => [r]
      | x :: xs => if le r x then r :: x :: xs else x :: insert r xs
    insert r (stableSortBy le rs)

/-- The sort step of the preview: no reordering when the sort attribute is
empty; else sort by the comparator `(a, b) => a[k] > b[k] ? dir : -dir`
(`a` may precede `b` exactly when the comparator is negative). -/
def sortStep (rows : List Row) (s : SortDef) : List Row :=
  if s.«attribute» = "" then rows
  else
    stableSortBy
      (fun a b =>
        match s.direction with
        | .ASC => !(jsGTval (getVal a s.«attribute») (getVal b s.«attribute»))
        | .DESC => jsGTval (getVal a s.«attribute») (getVal b s.«attribute»))
      rows

/-- The rows/columns pair computed before sorting and limiting: grouped
runs aggregate and name columns `func(attribute)`; ungrouped runs project
each row onto the selected columns (or the dataset's first six attributes).
(The host's projection writes `obj[c] = r[c]` even when `r[c]` is
`undefined`; observationally on `getVal` this equals skipping the key.) -/
def previewRowsCols (filteredRows : List Row) (selectedAttributes : List String)
    (datasetAttributes : List String) (groupBy : List String)
    (aggs : List AggregationDef) : List Row × List String :=
  if groupBy.length ≠ 0 ∨ aggs.length ≠ 0 then
    (groupAndAggregate filteredRows groupBy aggs,
      groupBy ++ aggs.map (fun a => funcLower a.func ++ "(" ++ a.«attribute» ++ ")"))
  else
    let columns := if selectedAttributes.length ≠ 0 then selectedAttributes
      else datasetAttributes.take 6
    (filteredRows.map (fun r =>
      columns.foldl (fun o c =>
        match getVal r c with
        | some v => setVal o c v
        | none => o) []), columns)

/-- A computed preview: result rows and column names. -/
structure Preview where
  rows : List Row
  columns : List String
deriving Repr

/-- The preview computation after filtering: project/aggregate, sort, then
truncate to the first `rowLimit` rows. -/
def preview (filteredRows : List Row) (selectedAttributes : List String)
    (datasetAttributes : List String) (groupBy : List String)
    (aggs : List AggregationDef) (sort : SortDef) (rowLimit : Nat) : Preview :=
  { rows := (sortStep (previewRowsCols filteredRows selectedAttributes
      datasetAttributes groupBy aggs).1 sort).take rowLimit,
    columns := (previewRowsCols filteredRows selectedAttributes
      datasetAttributes groupBy aggs).2 }

/-! ## Specification-side auxiliary notions

These definitions formalise the words of the properties being checked —
splitting a serialized blob on the newline character, a standard
delimited-text field parser for the round-trip property, and first-seen
orderings of group keys.  They are not part of the embedded program. -/

/-- Split a character list on the newline character; always returns at
least one (possibly empty) line, and one more line per newline character. -/
def splitNl : List Char → List (List Char)
  | [] => [[]]
  | c :: rest =>
    if c = '\n' then [] :: splitNl rest
    else
      match splitNl rest with
      | [] => [[c]]
      | h :: t => (c :: h) :: t

/-- Number of occurrences of a character in a string. -/
def charCount (s : String) (c : Char) : Nat := s.data.count c

/-- Undo the doubling of quote characters inside a quoted field. -/
def csvUnescapeQuotes : List Char → List Char
  | [] => []
  | [c] => [c]
  | c :: d :: rest =>
    if c = '"' ∧ d = '"' then '"' :: csvUnescapeQuotes rest
    else c :: csvUnescapeQuotes (d :: rest)

/-- A standard delimited-text reader's treatment of one field: a field
wrapped in quote characters has the wrapping removed and internal doubled
quotes collapsed; any other field is taken literally. -/
def csvParseField (s : String) : String :=
  match s.data with
  | '"' :: rest =>
    if rest ≠ [] ∧ rest.getLast? = some '"' then String.mk (csvUnescapeQuotes rest.dropLast)
    else s
  | _ => s

/-- The first-seen-order list of distinct elements of `l` (each element
kept at its first occurrence). -/
def firstOccur (l : List String) : List String :=
  l.foldl (fun acc k => if k ∈ acc then acc else acc ++ [k]) []

/-- The operator strings the filter evaluator's `switch` recognizes. -/
def recognizedOps : List String :=
  ["contains", "startsWith", "endsWith", "=", "!=", ">", ">=", "<", "<=",
    "between", "on", "before", "after", "range"]

/-! ## Claim theorems -/

/-- Claim C1: the aggregation engine never finalizes `avg` — on a two-row
group the emitted row carries the internal `__sum_x`/`__cnt_x` accumulator
fields and has no `avg(x)` column at all (the source's finalize loop has an
empty body), contradicting the specified finalization contract. -/
theorem c1_avg_never_finalized :
    groupAndAggregate
      [[("g", .vStr "A"), ("x", .vNum (.fin 2))],
       [("g", .vStr "A"), ("x", .vNum (.fin 4))]]
      ["g"] [⟨"x", .avg⟩] =
      [[("g", .vStr "A"), ("__sum_x", .vNum (.fin 6)), ("__cnt_x", .vNum (.fin 2))]] ∧
    getVal [("g", .vStr "A"), ("__sum_x", .vNum (.fin 6)), ("__cnt_x", .vNum (.fin 2))]
      "avg(x)" = none ∧
    getVal [("g", .vStr "A"), ("__sum_x", .vNum (.fin 6)), ("__cnt_x", .vNum (.fin 2))]
      "__sum_x" = some (.vNum (.fin 6)) := by
  refine ⟨?_, ?_, ?_⟩ <;> with_unfolding_all decide

/-- Claim C2: a `sum` aggregation is poisoned by a non-coercible value —
the group of `x = 5` and `x = "oops"` yields `sum(x) = NaN`, not the sum 5
of the coercible values. -/
theorem c2_sum_poisoned_by_nan :
    groupAndAggregate
      [[("g", .vStr "A"), ("x", .vNum (.fin 5))],
       [("g", .vStr "A"), ("x", .vStr "oops")]]
      ["g"] [⟨"x", .sum⟩] =
      [[("g", .vStr "A"), ("sum(x)", .vNum .nan)]] ∧
    JSNum.nan ≠ JSNum.fin 5 := by
  refine ⟨?_, ?_⟩ <;> with_unfolding_all decide

/-- Claim C3 fails on the empty row list: the serialized output is the
header followed by a trailing newline, which splits into 2 lines, not
`|R| + 1 = 1`. -/
theorem c3_empty_rows_two_lines :
    toCSV [] ["a"] = "a\n" ∧
    (splitNl (toCSV [] ["a"]).data).length = 2 ∧
    (splitNl (toCSV [] ["a"]).data).length ≠ ([] : List Row).length + 1 := by
  refine ⟨?_, ?_, ?_⟩ <;> with_unfolding_all decide

/-- Claim C6 fails for a filter on an attribute absent from the row: a
`contains "foo"` filter on the missing attribute `a` coerces the absent
value to the empty string and drops the row instead of keeping it. -/
theorem c6_absent_attribute_drops_row :
    applyFilters [[("b", .vNum (.fin 1))]] [⟨"1", "a", "contains", "foo"⟩] = [] ∧
    ([] : List Row) ≠ [[("b", .vNum (.fin 1))]] := by
  refine ⟨?_, ?_⟩ <;> with_unfolding_all decide

/-- Claim C8 fails when a contributing value itself coerces to infinity: a
non-empty group whose single `x` value is the text `"Infinity"` surfaces
`max(x) = Infinity` in the final result row. -/
theorem c8_infinite_input_surfaces_infinity :
    groupAndAggregate [[("g", .vStr "A"), ("x", .vStr "Infinity")]]
      ["g"] [⟨"x", .max⟩] =
      [[("g", .vStr "A"), ("max(x)", .vNum .posInf)]] := by
  with_unfolding_all decide

/-- Claim C9 fails when a group-by value contains the internal key
separator: two rows with distinct `(a, b)` tuples join to the same group
key string, so one result row is emitted for two distinct tuples. -/
theorem c9_separator_collision :
    (groupAndAggregate
      [[("a", .vStr "x|§|y"), ("b", .vStr "z")],
       [("a", .vStr "x"), ("b", .vStr "y|§|z")]] ["a", "b"] []).length = 1 ∧
    (([[("a", .vStr "x|§|y"), ("b", .vStr "z")],
       [("a", .vStr "x"), ("b", .vStr "y|§|z")]].map
        (fun r => ["a", "b"].map (fun g => joinElem (getVal r g)))).dedup).length = 2 := by
  refine ⟨?_, ?_⟩ <;> with_unfolding_all decide

/-- Claim C5: for every row list and filter list the filter evaluator's
output is a sublist (hence a subset) of its input, and the empty filter
list is the identity. -/
theorem c5_filters_subset_and_identity (rows : List Row) (filters : List FilterDef) :
    applyFilters rows [] = rows ∧ (applyFilters rows filters).Sublist rows := by
  constructor
  · rfl
  · unfold applyFilters
    split
    · exact List.Sublist.refl rows
    · exact List.filter_sublist rows

/-- Claim C10: the generated query string always ends in the fixed text
` LIMIT 100;` (the generator never sees the configured row limit), while
the preview's result rows are the first `rowLimit` rows after sorting, so
at most `rowLimit` rows are kept. -/
theorem c10_sql_limit_fixed_preview_truncates (c : SqlConfig)
    (filteredRows : List Row) (selectedAttributes datasetAttributes groupBy : List String)
    (aggs : List AggregationDef) (sort : SortDef) (rowLimit : Nat) :
    (∃ p, sqlPreview c = p ++ " LIMIT 100;") ∧
    (preview filteredRows selectedAttributes datasetAttributes groupBy aggs sort
        rowLimit).rows =
      (sortStep (previewRowsCols filteredRows selectedAttributes datasetAttributes
        groupBy aggs).1 sort).take rowLimit ∧
    (preview filteredRows selectedAttributes datasetAttributes groupBy aggs sort
        rowLimit).rows.length ≤ rowLimit := by
  refine ⟨⟨_, rfl⟩, rfl, ?_⟩
  simp only [preview, List.length_take]
  exact min_le_left _ _

/-- Claim C6 (amended): a filter whose operator is not one of the
recognized operator strings never excludes a row — a whole filter list of
unrecognized operators leaves the row list unchanged. -/
theorem c6_unknown_operator_keeps_rows (rows : List Row) (filters : List FilterDef)
    (h : ∀ f ∈ filters, f.operator ∉ recognizedOps) :
    applyFilters rows filters = rows := by
  unfold applyFilters
  split
  · rfl
  · apply List.filter_eq_self.mpr
    intro r _
    rw [List.all_eq_true]
    intro f hf
    have hop := h f hf
    simp only [recognizedOps, List.mem_cons, List.not_mem_nil] at hop
    push_neg at hop
    unfold filterPred
    split <;> simp_all

/-- Witness for `c6_unknown_operator_keeps_rows` at a concrete unrecognized
operator. -/
theorem c6_unknown_operator_keeps_rows_witness :
    applyFilters [[("b", .vNum (.fin 1))]] [⟨"1", "a", "weird", "foo"⟩] =
      [[("b", .vNum (.fin 1))]] :=
  c6_unknown_operator_keeps_rows _ _ (by with_unfolding_all decide)

theorem JSNum.leb_fin (a b : ℚ) : JSNum.leb (.fin a) (.fin b) = decide (a ≤ b) := rfl

theorem JSNum.minJ_fin (a b : ℚ) : JSNum.minJ (.fin a) (.fin b) = .fin (min a b) := by
  by_cases h : a ≤ b
  · simp [JSNum.minJ, JSNum.leb, h, min_eq_left h]
  · simp [JSNum.minJ, JSNum.leb, h, min_eq_right (le_of_not_le h)]

theorem JSNum.maxJ_fin (a b : ℚ) : JSNum.maxJ (.fin a) (.fin b) = .fin (max a b) := by
  by_cases h : a ≤ b
  · simp [JSNum.maxJ, JSNum.leb, h, max_eq_right h]
  · simp [JSNum.maxJ, JSNum.leb, h, max_eq_left (le_of_not_le h)]

/-- Claim C7: the `between` operator normalizes its two numeric bounds with
min/max, so it accepts a numeric value exactly when it lies between the
smaller and the larger bound, in either operand order; the date `range`
operator takes its first part strictly as the lower bound and its second as
the upper bound, so with the two date parts in reversed order it selects no
rows at all. -/
theorem c7_between_normalizes_range_does_not :
    (∀ (fid attr valStr sa sb : String) (row : Row) (q a b : ℚ),
      getVal row attr = some (.vNum (.fin q)) →
      (valStr.splitOn ",").get? 0 = some sa →
      (valStr.splitOn ",").get? 1 = some sb →
      parseNum sa = .fin a → parseNum sb = .fin b →
      (filterPred row ⟨fid, attr, "between", valStr⟩ = true ↔
        (min a b ≤ q ∧ q ≤ max a b))) ∧
    (∀ (fid attr valStr sa sb : String) (rows : List Row) (da db : ℚ),
      (valStr.splitOn ",").get? 0 = some sa →
      (valStr.splitOn ",").get? 1 = some sb →
      parseDate sa = .fin da → parseDate sb = .fin db → db < da →
      applyFilters rows [⟨fid, attr, "range", valStr⟩] = []) := by
  constructor
  · intro fid attr valStr sa sb row q a b hv h0 h1 hpa hpb
    unfold filterPred
    simp only [h0, h1, hv]
    simp [numOfOptStr, hpa, hpb, toNumber, JSNum.minJ_fin, JSNum.maxJ_fin,
      JSNum.geb, JSNum.leb_fin]
  · intro fid attr valStr sa sb rows da db h0 h1 hpa hpb hrev
    unfold applyFilters
    simp only [List.isEmpty_cons, Bool.false_eq_true, if_false]
    rw [List.filter_eq_nil_iff]
    intro r _
    unfold filterPred
    simp only [h0, h1, List.all_cons, List.all_nil, Bool.and_true]
    simp only [dateOfOptStr, hpa, hpb]
    cases hdv : parseDate (jsString (getVal r attr)) with
    | nan => simp [JSNum.geb, JSNum.leb]
    | posInf => simp [JSNum.geb, JSNum.leb]
    | negInf => simp [JSNum.geb, JSNum.leb]
    | fin x =>
      simp only [JSNum.geb, JSNum.leb_fin, Bool.and_eq_true, decide_eq_true_eq,
        not_and]
      intro hge hle
      linarith

/-- Witness for `c7_between_normalizes_range_does_not` at the spec's own
scenario: `between` with `"50,10"` accepts 30 (bounds normalized), and a
`range` filter with `"2024-02-01,2024-01-01"` (reversed order) selects no
rows. -/
theorem c7_between_range_witness :
    filterPred [("x", .vNum (.fin 30))] ⟨"1", "x", "between", "50,10"⟩ = true ∧
    applyFilters [[("d", .vStr "2024-01-15")]]
      [⟨"1", "d", "range", "2024-02-01,2024-01-01"⟩] = [] := by
  constructor
  · exact (c7_between_normalizes_range_does_not.1 "1" "x" "50,10" "50" "10"
      [("x", .vNum (.fin 30))] 30 50 10
      (by with_unfolding_all decide) (by with_unfolding_all decide)
      (by with_unfolding_all decide) (by with_unfolding_all decide)
      (by with_unfolding_all decide)).mpr (by norm_num)
  · exact c7_between_normalizes_range_does_not.2 "1" "d" "2024-02-01,2024-01-01"
      "2024-02-01" "2024-01-01" [[("d", .vStr "2024-01-15")]]
      (ratOfNat 20240201) (ratOfNat 20240101)
      (by with_unfolding_all decide) (by with_unfolding_all decide)
      (by decide) (by decide) (by decide)

theorem csvUnescape_escQuotes (l : List Char) : csvUnescapeQuotes (escQuotes l) = l := by
  induction l with
  | nil => rfl
  | cons c t ih =>
    by_cases hc : c = '"'
    · subst hc
      simpa [escQuotes, csvUnescapeQuotes] using ih
    · cases t with
      | nil => simp [escQuotes, csvUnescapeQuotes, hc]
      | cons d t2 =>
        have hcons : ∃ x rest, escQuotes (d :: t2) = x :: rest := by
          by_cases hd : d = '"' <;> simp [escQuotes, hd]
        obtain ⟨x, rest, hx⟩ := hcons
        calc csvUnescapeQuotes (escQuotes (c :: d :: t2))
            = csvUnescapeQuotes (c :: escQuotes (d :: t2)) := by
              simp [escQuotes, hc]
          _ = c :: csvUnescapeQuotes (escQuotes (d :: t2)) := by
              rw [hx]; simp [csvUnescapeQuotes, hc]
          _ = c :: d :: t2 := by rw [ih]

/-- Claim C4: a field value containing a comma or a quote character is
serialized wrapped in quotes with every internal quote doubled, and a
standard delimited-text field parser recovers the original string exactly
from that serialized form. -/
theorem c4_quoting_round_trip (val : String)
    (h : (strIncludes val "," || strIncludes val "\"") = true) :
    csvField (some (.vStr val)) = "\"" ++ String.mk (escQuotes val.data) ++ "\"" ∧
    csvParseField (csvField (some (.vStr val))) = val := by
  have hfield : csvField (some (.vStr val)) =
      "\"" ++ String.mk (escQuotes val.data) ++ "\"" := by
    simp only [csvField, valueToString, h, if_true]
  refine ⟨hfield, ?_⟩
  rw [hfield]
  have hdata : ("\"" ++ String.mk (escQuotes val.data) ++ "\"").data
      = '"' :: (escQuotes val.data ++ ['"']) := rfl
  unfold csvParseField
  rw [hdata]
  simp only [List.getLast?_concat, List.dropLast_concat, ne_eq,
    List.append_eq_nil, List.cons_ne_self, and_false, not_false_iff,
    List.cons_ne_nil, true_and, and_self, if_true, Option.some.injEq]
  rw [csvUnescape_escQuotes]

/-- Witness for `c4_quoting_round_trip` at the spec's own scenario value
`He said "hi"`. -/
theorem c4_quoting_round_trip_witness :
    csvField (some (.vStr "He said \"hi\"")) = "\"He said \"\"hi\"\"\"" ∧
    csvParseField (csvField (some (.vStr "He said \"hi\""))) = "He said \"hi\"" := by
  have h := c4_quoting_round_trip "He said \"hi\"" (by with_unfolding_all decide)
  exact ⟨by rw [h.1]; with_unfolding_all decide, h.2⟩

theorem splitNl_ne_nil (l : List Char) : splitNl l ≠ [] := by
  induction l with
  | nil => simp [splitNl]
  | cons c rest ih =>
    simp only [splitNl]
    split
    · simp
    · cases h : splitNl rest with
      | nil => simp
      | cons a t => simp

theorem splitNl_length (l : List Char) : (splitNl l).length = l.count '\n' + 1 := by
  induction l with
  | nil => simp [splitNl]
  | cons c rest ih =>
    simp only [splitNl]
    by_cases hc : c = '\n'
    · subst hc
      simp [List.count_cons, ih]
    · rw [if_neg hc]
      cases h : splitNl rest with
      | nil => exact absurd h (splitNl_ne_nil rest)
      | cons a t =>
        rw [h] at ih
        simp only [List.length_cons] at ih ⊢
        simp [List.count_cons, hc, ← ih]

theorem charCount_append (a b : String) (c : Char) :
    charCount (a ++ b) c = charCount a c + charCount b c :=
  List.count_append c a.data b.data

theorem charCount_joinSep_zero (sep : String) (xs : List String) (c : Char)
    (hsep : charCount sep c = 0) (h : ∀ x ∈ xs, charCount x c = 0) :
    charCount (joinSep sep xs) c = 0 := by
  induction xs with
  | nil => rfl
  | cons x xs ih =>
    cases xs with
    | nil => exact h x (by simp)
    | cons y ys =>
      rw [joinSep, charCount_append, charCount_append]
      rw [h x (by simp), hsep, ih (fun z hz => h z (by simp [hz]))]

theorem charCount_joinSep_newline (xs : List String)
    (hx : xs ≠ []) (h : ∀ x ∈ xs, charCount x '\n' = 0) :
    charCount (joinSep "\n" xs) '\n' = xs.length - 1 := by
  induction xs with
  | nil => exact absurd rfl hx
  | cons x xs ih =>
    cases xs with
    | nil => simpa [joinSep] using h x (by simp)
    | cons y ys =>
      rw [joinSep, charCount_append, charCount_append]
      rw [h x (by simp)]
      have h1 : charCount "\n" '\n' = 1 := rfl
      rw [h1, ih (by simp) (fun z hz => h z (by simp [hz]))]
      simp only [List.length_cons]
      omega

/-- Claim C3 (amended): for every column list and *non-empty* row list
whose column names and serialized cell values contain no newline character,
the serialized blob split on the newline character has exactly `|R| + 1`
lines; for the empty row list the blob is the header plus a trailing
newline, which splits into 2 lines (see the counterexample). -/
theorem c3_lines_header_plus_rows (rows : List Row) (columns : List String)
    (hrows : rows ≠ [])
    (hcols : ∀ s ∈ columns, charCount s '\n' = 0)
    (hfields : ∀ r ∈ rows, ∀ s ∈ columns, charCount (csvField (getVal r s)) '\n' = 0) :
    (splitNl (toCSV rows columns).data).length = rows.length + 1 := by
  rw [splitNl_length]
  have h1 : charCount (toCSV rows columns) '\n' = rows.length := by
    unfold toCSV
    rw [charCount_append, charCount_append]
    rw [charCount_joinSep_zero "," columns '\n' rfl hcols]
    have hone : charCount "\n" '\n' = 1 := rfl
    rw [hone]
    have hmap : (rows.map (fun r =>
        joinSep "," (columns.map (fun c => csvField (getVal r c))))) ≠ [] := by
      simpa using hrows
    rw [charCount_joinSep_newline _ hmap ?hlines]
    case hlines =>
      intro x hxmem
      obtain ⟨r, hr, rfl⟩ := List.mem_map.mp hxmem
      apply charCount_joinSep_zero "," _ '\n' rfl
      intro z hz
      obtain ⟨s, hs, rfl⟩ := List.mem_map.mp hz
      exact hfields r hr s hs
    have hpos : 0 < rows.length := List.length_pos.mpr hrows
    simp only [List.length_map]
    omega
  have : (toCSV rows columns).data.count '\n' = rows.length := h1
  omega

/-- Witness for `c3_lines_header_plus_rows` on a one-row table. -/
theorem c3_lines_header_plus_rows_witness :
    (splitNl (toCSV [[("a", .vStr "x")]] ["a"]).data).length = 2 :=
  c3_lines_header_plus_rows [[("a", .vStr "x")]] ["a"] (by simp)
    (by with_unfolding_all decide) (by with_unfolding_all decide)

theorem updateGroupAt_map_fst (gs : List (String × Row)) (k : String) (f : Row → Row) :
    (updateGroupAt gs k f).map Prod.fst = gs.map Prod.fst := by
  induction gs with
  | nil => rfl
  | cons p ps ih =>
    simp only [updateGroupAt, List.map_cons] at ih ⊢
    split <;> simp_all

theorem findGroup_isSome_iff (gs : List (String × Row)) (k : String) :
    (findGroup gs k).isSome = true ↔ k ∈ gs.map Prod.fst := by
  induction gs with
  | nil => simp [findGroup]
  | cons p ps ih =>
    simp only [findGroup, List.map_cons, List.mem_cons]
    by_cases h : p.1 == k
    · simp [h, eq_of_beq h]
    · rw [if_neg h]
      simp only [beq_iff_eq] at h
      simp [ih, Ne.symm h]

theorem foldl_groupStep_keys (gb : List String) (aggs : List AggregationDef) :
    ∀ (rows : List Row) (gs : List (String × Row)),
    (rows.foldl (groupStep gb aggs) gs).map Prod.fst =
      rows.foldl (fun acc r => if keyFn gb r ∈ acc then acc else acc ++ [keyFn gb r])
        (gs.map Prod.fst) := by
  intro rows
  induction rows with
  | nil => intro gs; rfl
  | cons r rows ih =>
    intro gs
    simp only [List.foldl_cons]
    rw [ih]
    congr 1
    unfold groupStep
    simp only []
    rw [updateGroupAt_map_fst]
    by_cases hk : (findGroup gs (keyFn gb r)).isSome = true
    · rw [if_pos hk, if_pos ((findGroup_isSome_iff gs (keyFn gb r)).mp hk)]
    · rw [if_neg hk, if_neg (fun hmem =>
        hk ((findGroup_isSome_iff gs (keyFn gb r)).mpr hmem))]
      simp

theorem mem_foldl_firstSeen (a : String) :
    ∀ (l : List String) (acc : List String),
    (a ∈ l.foldl (fun acc k => if k ∈ acc then acc else acc ++ [k]) acc ↔
      a ∈ acc ∨ a ∈ l) := by
  intro l
  induction l with
  | nil => simp
  | cons x xs ih =>
    intro acc
    simp only [List.foldl_cons, ih, List.mem_cons]
    by_cases hx : x ∈ acc
    · rw [if_pos hx]
      constructor
      · tauto
      · rintro (h | rfl | h) <;> tauto
    · rw [if_neg hx]
      simp only [List.mem_append, List.mem_singleton]
      tauto

theorem nodup_foldl_firstSeen :
    ∀ (l : List String) (acc : List String), acc.Nodup →
    (l.foldl (fun acc k => if k ∈ acc then acc else acc ++ [k]) acc).Nodup := by
  intro l
  induction l with
  | nil => intro acc h; exact h
  | cons x xs ih =>
    intro acc h
    simp only [List.foldl_cons]
    by_cases hx : x ∈ acc
    · rw [if_pos hx]; exact ih acc h
    · rw [if_neg hx]
      exact ih _ (by simp [List.nodup_append, h, hx])

theorem firstOccur_length_eq_dedup_length (l : List String) :
    (firstOccur l).length = l.dedup.length := by
  have nd1 : (firstOccur l).Nodup := nodup_foldl_firstSeen l [] (by simp)
  have nd2 : l.dedup.Nodup := List.nodup_dedup l
  have hfin : (firstOccur l).toFinset = l.dedup.toFinset := by
    ext a
    simp [List.mem_toFinset, firstOccur, mem_foldl_firstSeen, List.mem_dedup]
  calc (firstOccur l).length = (firstOccur l).toFinset.card :=
        (List.toFinset_card_of_nodup nd1).symm
    _ = l.dedup.toFinset.card := by rw [hfin]
    _ = l.dedup.length := List.toFinset_card_of_nodup nd2

/-- Claim C9 (amended): the aggregation engine emits exactly one result row
per distinct group-key *string* (the group-by values joined with the
internal `|§|` separator) — equal to the number of distinct joined keys
among the input rows, with the groups listed in first-seen order of their
key; distinct tuples only coincide with distinct key strings when no value
embeds the separator (see the counterexample). -/
theorem c9_one_row_per_first_seen_key (rows : List Row) (gb : List String)
    (aggs : List AggregationDef) :
    (buildGroups rows gb aggs).map Prod.fst = firstOccur (rows.map (keyFn gb)) ∧
    (groupAndAggregate rows gb aggs).length = ((rows.map (keyFn gb)).dedup).length := by
  have hkeys : (buildGroups rows gb aggs).map Prod.fst =
      firstOccur (rows.map (keyFn gb)) := by
    unfold buildGroups
    rw [foldl_groupStep_keys]
    simp [firstOccur, List.foldl_map]
  refine ⟨hkeys, ?_⟩
  have hlen : (groupAndAggregate rows gb aggs).length =
      (firstOccur (rows.map (keyFn gb))).length := by
    unfold groupAndAggregate
    rw [List.length_map, ← hkeys, List.length_map]
  rw [hlen, firstOccur_length_eq_dedup_length]

theorem getVal_setVal_self (r : Row) (k : String) (v : Value) :
    getVal (setVal r k v) k = some v := by
  induction r with
  | nil => simp [setVal, getVal]
  | cons p ps ih =>
    simp only [setVal]
    by_cases h : p.1 == k
    · rw [if_pos h]
      simp [getVal, h]
    · rw [if_neg h]
      simp [getVal, h, ih]

theorem JSNum.minJ_cases (a b : JSNum) :
    JSNum.minJ a b = .nan ∨ JSNum.minJ a b = a ∨ JSNum.minJ a b = b := by
  cases a <;> cases b <;> simp only [JSNum.minJ] <;> (try split) <;> tauto

theorem JSNum.maxJ_cases (a b : JSNum) :
    JSNum.maxJ a b = .nan ∨ JSNum.maxJ a b = a ∨ JSNum.maxJ a b = b := by
  cases a <;> cases b <;> simp only [JSNum.maxJ] <;> (try split) <;> tauto

theorem JSNum.minJ_posInf (b : JSNum) :
    JSNum.minJ .posInf b = .nan ∨ JSNum.minJ .posInf b = b := by
  cases b <;> simp [JSNum.minJ, JSNum.leb]

theorem JSNum.maxJ_negInf (b : JSNum) :
    JSNum.maxJ .negInf b = .nan ∨ JSNum.maxJ .negInf b = b := by
  cases b <;> simp [JSNum.maxJ, JSNum.leb]

theorem foldl_groupStep_extremum (gb : List String) (attr : String)
    (fn : NumericFunc) (key : String) (seed : JSNum)
    (op : JSNum → JSNum → JSNum)
    (hop1 : ∀ a b, a ≠ .posInf → a ≠ .negInf → b ≠ .posInf → b ≠ .negInf →
      op a b ≠ .posInf ∧ op a b ≠ .negInf)
    (hop2 : ∀ b, op seed b = .nan ∨ op seed b = b)
    (hupd : ∀ (g r : Row), updateRow g r [⟨attr, fn⟩] =
      setVal g key (.vNum (op (getNum g key) (toNumber (getVal r attr)))))
    (hinit : ∀ r : Row, getVal (initGroup r gb [⟨attr, fn⟩]) key = some (.vNum seed)) :
    ∀ (rows : List Row) (gs : List (String × Row)),
    (∀ r ∈ rows, toNumber (getVal r attr) ≠ .posInf ∧ toNumber (getVal r attr) ≠ .negInf) →
    (∀ p ∈ gs, ∃ m, getVal p.2 key = some (.vNum m) ∧ m ≠ .posInf ∧ m ≠ .negInf) →
    ∀ p ∈ rows.foldl (groupStep gb [⟨attr, fn⟩]) gs,
      ∃ m, getVal p.2 key = some (.vNum m) ∧ m ≠ .posInf ∧ m ≠ .negInf := by
  intro rows
  induction rows with
  | nil => intro gs _ hgs p hp; exact hgs p hp
  | cons r rest ih =>
    intro gs hvals hgs p hp
    simp only [List.foldl_cons] at hp
    have hval : toNumber (getVal r attr) ≠ .posInf ∧ toNumber (getVal r attr) ≠ .negInf :=
      hvals r (by simp)
    refine ih _ (fun z hz => hvals z (by simp [hz])) ?_ p hp
    -- invariant carries over one groupStep
    intro q hq
    unfold groupStep at hq
    simp only [] at hq
    set k := keyFn gb r with hk
    set gs1 := if (findGroup gs k).isSome = true then gs
      else gs ++ [(k, initGroup r gb [⟨attr, fn⟩])] with hgs1
    have hgs1P : ∀ p ∈ gs1, (p.1 ≠ k →
        ∃ m, getVal p.2 key = some (.vNum m) ∧ m ≠ .posInf ∧ m ≠ .negInf) ∧
        (p.1 = k → (∃ m, getVal p.2 key = some (.vNum m) ∧ m ≠ .posInf ∧ m ≠ .negInf) ∨
          p.2 = initGroup r gb [⟨attr, fn⟩]) := by
      intro p hp1
      rw [hgs1] at hp1
      split at hp1
      · exact ⟨fun _ => hgs p hp1, fun _ => Or.inl (hgs p hp1)⟩
      · rcases List.mem_append.mp hp1 with hmem | hmem
        · exact ⟨fun _ => hgs p hmem, fun _ => Or.inl (hgs p hmem)⟩
        · simp only [List.mem_singleton] at hmem
          subst hmem
          exact ⟨fun hne => absurd rfl hne, fun _ => Or.inr rfl⟩
    -- q is an entry of updateGroupAt gs1 k upd
    unfold updateGroupAt at hq
    obtain ⟨q0, hq0, hφ⟩ := List.mem_map.mp hq
    by_cases hkey : q0.1 == k
    · rw [if_pos hkey] at hφ
      subst hφ
      rcases (hgs1P q0 hq0).2 (by simpa using hkey) with ⟨m, hm, hm1, hm2⟩ | hfresh
      · show ∃ m, getVal (updateRow q0.2 r [⟨attr, fn⟩]) key = some (.vNum m) ∧
          m ≠ .posInf ∧ m ≠ .negInf
        rw [hupd]
        refine ⟨op m (toNumber (getVal r attr)), ?_, ?_⟩
        · rw [getVal_setVal_self]
          congr 2
          simp [getNum, hm, toNumber]
        · exact hop1 m _ hm1 hm2 hval.1 hval.2
      · show ∃ m, getVal (updateRow q0.2 r [⟨attr, fn⟩]) key = some (.vNum m) ∧
          m ≠ .posInf ∧ m ≠ .negInf
        rw [hupd, hfresh]
        have hseed : getNum (initGroup r gb [⟨attr, fn⟩]) key = seed := by
          simp [getNum, hinit r, toNumber]
        rw [hseed]
        refine ⟨op seed (toNumber (getVal r attr)), by rw [getVal_setVal_self], ?_⟩
        rcases hop2 (toNumber (getVal r attr)) with h | h <;> rw [h]
        · simp
        · exact ⟨hval.1, hval.2⟩
    · rw [if_neg hkey] at hφ
      subst hφ
      exact (hgs1P q0 hq0).1 (by simpa using hkey)

theorem updateRow_min (g r : Row) (attr : String) :
    updateRow g r [⟨attr, .min⟩] = setVal g ("min(" ++ attr ++ ")")
      (.vNum (JSNum.minJ (getNum g ("min(" ++ attr ++ ")"))
        (toNumber (getVal r attr)))) := rfl

theorem updateRow_max (g r : Row) (attr : String) :
    updateRow g r [⟨attr, .max⟩] = setVal g ("max(" ++ attr ++ ")")
      (.vNum (JSNum.maxJ (getNum g ("max(" ++ attr ++ ")"))
        (toNumber (getVal r attr)))) := rfl

theorem getVal_initGroup_min (r : Row) (gb : List String) (attr : String) :
    getVal (initGroup r gb [⟨attr, .min⟩]) ("min(" ++ attr ++ ")") =
      some (.vNum .posInf) := by
  unfold initGroup
  simp only [List.foldl_cons, List.foldl_nil]
  exact getVal_setVal_self _ _ _

theorem getVal_initGroup_max (r : Row) (gb : List String) (attr : String) :
    getVal (initGroup r gb [⟨attr, .max⟩]) ("max(" ++ attr ++ ")") =
      some (.vNum .negInf) := by
  unfold initGroup
  simp only [List.foldl_cons, List.foldl_nil]
  exact getVal_setVal_self _ _ _

/-- Claim C8 (amended): for a `min` or `max` aggregation over rows none of
whose aggregated values coerces to positive or negative infinity, every
emitted group row carries a non-infinite extremum: the infinite seed is
overwritten by the group's first row before the group is surfaced.  (If an
input value itself coerces to infinity the claim fails — see the
counterexample.) -/
theorem c8_minmax_never_infinite (rows : List Row) (gb : List String) (attr : String)
    (fn : NumericFunc) (hfn : fn = .min ∨ fn = .max)
    (hvals : ∀ r ∈ rows, toNumber (getVal r attr) ≠ .posInf ∧
      toNumber (getVal r attr) ≠ .negInf) :
    ∀ out ∈ groupAndAggregate rows gb [⟨attr, fn⟩],
      ∃ m, getVal out (funcLower fn ++ "(" ++ attr ++ ")") = some (.vNum m) ∧
        m ≠ .posInf ∧ m ≠ .negInf := by
  intro out hout
  obtain ⟨p, hp, rfl⟩ := List.mem_map.mp hout
  rcases hfn with rfl | rfl
  · exact foldl_groupStep_extremum gb attr .min ("min(" ++ attr ++ ")") .posInf
      JSNum.minJ
      (fun a b ha1 ha2 hb1 hb2 => by
        rcases JSNum.minJ_cases a b with h | h | h <;> rw [h] <;> simp_all)
      JSNum.minJ_posInf (updateRow_min · · attr) (getVal_initGroup_min · gb attr)
      rows [] hvals (by simp) p hp
  · exact foldl_groupStep_extremum gb attr .max ("max(" ++ attr ++ ")") .negInf
      JSNum.maxJ
      (fun a b ha1 ha2 hb1 hb2 => by
        rcases JSNum.maxJ_cases a b with h | h | h <;> rw [h] <;> simp_all)
      JSNum.maxJ_negInf (updateRow_max · · attr) (getVal_initGroup_max · gb attr)
      rows [] hvals (by simp) p hp

/-- Witness for `c8_minmax_never_infinite` on a one-row group with a finite
value. -/
theorem c8_minmax_never_infinite_witness :
    ∃ m, getVal [("g", .vStr "A"), ("min(x)", .vNum (.fin 3))] "min(x)" =
      some (.vNum m) ∧ m ≠ .posInf ∧ m ≠ .negInf :=
  c8_minmax_never_infinite [[("g", .vStr "A"), ("x", .vNum (.fin 3))]] ["g"] "x"
    .min (Or.inl rfl) (by with_unfolding_all decide)
    [("g", .vStr "A"), ("min(x)", .vNum (.fin 3))] (by with_unfolding_all decide)

end ReportBuilder
